import Mathlib

/-!
Verification of the ggplot build pipeline against its specification.

This file gives a shallow embedding of the parts of the repository that the
verified properties talk about:

* `src/ggplot/layer.py` — `layer.compute_aesthetics`, `layer.calc_statistic`,
  `layer.map_statistic`, `add_group`, `discrete_columns`;
* `src/ggplot/scales/scale_xy.py` — `scale_position_discrete.train`,
  `scale_position_discrete.map`, `scale_position_discrete.limits`;
* `src/ggplot/stats/stat.py` — `stat._print_warning` and the class-level
  `stat._warnings_printed` set.

Tables are ordered lists of named columns; numeric cell values are modelled
as integers (so `floor`/`ceil` degenerate to the identity); missing values
are an explicit `vNull`.  Fallible code returns `Except`.  Helpers of the
repository that are not part of the sources embedded here (`ninteraction`,
`match`, `check_required_aesthetics`, `defaults`, the base `scale` training
methods, the dot-notation aesthetic representation) are modelled from the
specification; each such definition says so in its doc comment.
-/

namespace Ggplot

/-- A cell value of a data table.  Numeric values are modelled as integers
(`floor`/`ceil` are the identity on them); `vNull` is a missing value (NA). -/
inductive Val where
  | vInt (n : Int)
  | vStr (s : String)
  | vBool (b : Bool)
  | vNull
deriving DecidableEq

/-- Dtype class of a column/series: numeric dtypes (`continuous_dtypes`)
versus categorical/boolean/object dtypes (`discrete_dtypes`). -/
inductive Dtype where
  | continuous
  | discrete
deriving DecidableEq

/-- A named column of a table. -/
structure Col where
  name : String
  dtype : Dtype
  vals : List Val
deriving DecidableEq

/-- A pandas `DataFrame`: an ordered collection of named columns. -/
structure Table where
  cols : List Col
deriving DecidableEq

/-- `pd.DataFrame()` — the empty frame with no columns. -/
def Table.empty : Table := ⟨[]⟩

/-- `len(df)`: the row count, i.e. the common length of the columns
(0 when there are no columns). -/
def Table.nrows (t : Table) : Nat :=
  match t.cols with
  | [] => 0
  | c :: _ => c.vals.length

/-- Well-formedness of a frame: every column has the row count's length. -/
def Table.wf (t : Table) : Prop := ∀ c ∈ t.cols, c.vals.length = t.nrows

/-- `list(df.columns)`. -/
def Table.colNames (t : Table) : List String := t.cols.map Col.name

/-- `name in df`. -/
def Table.hasCol (t : Table) (name : String) : Bool :=
  t.cols.any (fun c => c.name == name)

/-- `df[name]`: column lookup (`none` models a `KeyError`). -/
def Table.getCol (t : Table) (name : String) : Option Col :=
  t.cols.find? (fun c => c.name == name)

/-- `df[name] = vals`: replace the column in place when it exists,
else append it at the end (pandas column assignment). -/
def Table.setCol (t : Table) (name : String) (dtype : Dtype)
    (vals : List Val) : Table :=
  if t.hasCol name then
    ⟨t.cols.map (fun c => if c.name == name then ⟨name, dtype, vals⟩ else c)⟩
  else
    ⟨t.cols ++ [⟨name, dtype, vals⟩]⟩

/-- A pandas `Series`: a dtype together with the values. -/
structure Series where
  dtype : Dtype
  vals : List Val
deriving DecidableEq

/-- The errors the embedded code can raise.  All of them are `GgplotError`
in the source except `keyError`/`typeError`, which come from pandas/python.
The spec names them `DataLengthError`, `UnknownAestheticError`,
`MissingAestheticError`, `NoLayersError`, `UnresolvedScaleError`. -/
inductive GgError where
  | dataLength
  | unknownAes (ae : String)
  | missingAes (statName : String) (missing : List String)
  | unresolvedScale
  | noLayers
  | keyError (name : String)
  | typeError
deriving DecidableEq

/-- Modelled from the spec: the value side of an aesthetic mapping entry.
§9 of the spec describes the intended tagged representation
`{Column(name) | Constant(value) | Computed(name)}`: a string is a column
reference, a list-like is a constant, a dot-notation string `..name..`
(recognised by `is_calculated_aes` in ggplot/components/aes.py, which is not
under src/) is a computed aesthetic, and anything else is unrecognised. -/
inductive AesVal where
  | column (name : String)
  | constant (vals : List Val)
  | computed (name : String)
  | other
deriving DecidableEq

/-- An aesthetic mapping: `{aesthetic_name -> value}` in insertion order. -/
abbrev AesMapping := List (String × AesVal)

/-- Modelled from the spec: `is_calculated_aes` (ggplot/components/aes.py,
not under src/) recognises exactly the dot-notation placeholders. -/
def AesVal.is_calculated : AesVal → Bool
  | .computed _ => true
  | _ => false

/-- Modelled from the spec: `strip_dots` turns the placeholder `..name..`
into the stat-produced column name `name`. -/
def AesVal.strip_dots : AesVal → String
  | .computed n => n
  | _ => ""

/-- Modelled from the spec: `defaults(d1, d2)` (ggplot/utils, not under
src/) merges two mappings with the entries of `d1` winning on conflict
("layer entries win", §4.1). -/
def defaults (d1 d2 : AesMapping) : AesMapping :=
  d1 ++ d2.filter (fun p => !(d1.any (fun q => q.1 == p.1)))

/-- `d[k] = v` on a python dict: replace in place when the key exists,
else append. -/
def dictInsert (d : AesMapping) (k : String) (v : AesVal) : AesMapping :=
  if d.any (fun p => p.1 == k) then
    d.map (fun p => if p.1 == k then (k, v) else p)
  else d ++ [(k, v)]

/-- The data of a `stat` object that the layer methods consult:
`REQUIRED_AES`, the keys of `self.params`, `DEFAULT_AES`, `retransform`,
and the class name.  `calculate_groups` stands for
`stat._calculate_groups` (declared but not defined in
src/ggplot/stats/stat.py): the per-(PANEL, group) transform is kept
abstract, as the verified properties never look inside it. -/
structure Stat where
  name : String
  required_aes : List String
  params : List String
  default_aes : AesMapping
  retransform : Bool
  calculate_groups : Table → Table

/-- The fields of a `layer` object used by the embedded methods.
`manual_aes` holds the keys of `self.geom.manual_aes`. -/
structure layer where
  mapping : AesMapping
  inherit_aes : Bool
  group : Option AesVal
  manual_aes : List String
  stat : Stat

/-- `layer.layer_mapping` (src/ggplot/layer.py:50-67): the effective
mapping is the layer mapping, merged over the plot mapping when
`inherit_aes`; aesthetics that are manual geom parameters or computed
(dot-notation) are dropped. -/
def layer.layer_mapping (l : layer) (plotMapping : AesMapping) : AesMapping :=
  let aesthetics := if l.inherit_aes then defaults l.mapping plotMapping
                    else l.mapping
  aesthetics.filter (fun p => !(l.manual_aes.contains p.1)
                              && !(p.2.is_calculated))

/-- The aesthetics loop of `layer.compute_aesthetics`
(src/ggplot/layer.py:85-98): a string is collected as a column to rename,
a list-like has its length checked — note the source condition
`if n != len(data) or n != 1` uses `or` — and is collected as a setting,
and anything else raises "Do not know how to deal with aesthetic".
A computed placeholder is a string in the source, hence a column
reference named with the dots (unreachable after `layer_mapping`). -/
def computeAesLoop (nData : Nat) :
    AesMapping → Except GgError (List (String × String) × List (String × List Val))
  | [] => .ok ([], [])
  | (ae, v) :: rest =>
    match v with
    | .column c =>
      match computeAesLoop nData rest with
      | .ok (cols, settings) => .ok ((ae, c) :: cols, settings)
      | .error e => .error e
    | .computed c =>
      match computeAesLoop nData rest with
      | .ok (cols, settings) => .ok ((ae, ".." ++ c ++ "..") :: cols, settings)
      | .error e => .error e
    | .constant vals =>
      if vals.length ≠ nData ∨ vals.length ≠ 1 then .error .dataLength
      else
        match computeAesLoop nData rest with
        | .ok (cols, settings) => .ok (cols, (ae, vals) :: settings)
        | .error e => .error e
    | .other => .error (.unknownAes ae)

/-- `evaled[ae] = data[col]` for each collected column reference, in
order: copy the referenced column under the aesthetic's name. -/
def buildEvaled (data : Table) :
    List (String × String) → Except GgError Table
  | [] => .ok Table.empty
  | (ae, cname) :: rest =>
    match data.getCol cname with
    | none => .error (.keyError cname)
    | some c =>
      match buildEvaled data rest with
      | .ok t => .ok ⟨⟨ae, c.dtype, c.vals⟩ :: t.cols⟩
      | .error e => .error e

/-- `layer.compute_aesthetics` (src/ggplot/layer.py:69-111).  The call
`scales_add_defaults(plot.scales, data, aesthetics)` only mutates
`plot.scales` and does not affect the frame returned, so it is omitted.
`evaled.update(settings)` aligns on existing columns only and the setting
keys are disjoint from the column-reference keys, so it changes nothing.
Finally the PANEL column is attached. -/
def layer.compute_aesthetics (l : layer) (plotMapping : AesMapping)
    (data : Table) : Except GgError Table :=
  let aesthetics := l.layer_mapping plotMapping
  let aesthetics := match l.group with
    | some g => dictInsert aesthetics "group" g
    | none => aesthetics
  match computeAesLoop data.nrows aesthetics with
  | .error e => .error e
  | .ok (cols, settings) =>
    match buildEvaled data cols with
    | .error e => .error e
    | .ok evaled =>
      if data.nrows = 0 ∧ ¬ settings.isEmpty then
        .ok (evaled.setCol "PANEL" .continuous
              (List.replicate evaled.nrows (.vInt 1)))
      else
        match data.getCol "PANEL" with
        | some c => .ok (evaled.setCol "PANEL" c.dtype c.vals)
        | none => .error (.keyError "PANEL")

/-- Modelled from the spec: `check_required_aesthetics` (ggplot/utils, not
under src/) fails with `MissingAestheticError` naming the stat and the
missing aesthetics when a required aesthetic is neither a column nor a
parameter (§4.4); it mirrors `stat._verify_aesthetics` in
src/ggplot/stats/stat.py:110-120. -/
def check_required_aesthetics (required present : List String)
    (name : String) : Except GgError Unit :=
  let missing := required.filter (fun r => !(present.contains r))
  if missing.isEmpty then .ok () else .error (.missingAes name missing)

/-- `layer.calc_statistic` (src/ggplot/layer.py:113-126): empty input
short-circuits to `pd.DataFrame()`; otherwise the required aesthetics are
checked against `list(data.columns) + list(self.stat.params.keys())` and
the stat's grouped computation runs. -/
def layer.calc_statistic (l : layer) (data : Table) : Except GgError Table :=
  if data.nrows = 0 then .ok Table.empty
  else
    match check_required_aesthetics l.stat.required_aes
        (data.colNames ++ l.stat.params) l.stat.name with
    | .error e => .error e
    | .ok _ => .ok (l.stat.calculate_groups data)

/-- `layer.map_statistic` (src/ggplot/layer.py:128-164): empty input maps
to `pd.DataFrame()`; otherwise the layer/plot/stat-default aesthetics are
assembled, the computed (dot-notation) aesthetics are extracted from the
stat output into `stat_data`, and when none were declared the input is
returned unchanged; the `scales_add_defaults` call only mutates
`plot.scales`, the `retransform` block is `pass` in the source, and the
result is `pd.concat([data, stat_data], axis=1)`. -/
def layer.map_statistic (l : layer) (plotMapping : AesMapping)
    (data : Table) : Except GgError Table :=
  if data.nrows = 0 then .ok Table.empty
  else
    let aesthetics := if l.inherit_aes then defaults l.mapping plotMapping
                      else l.mapping
    let aesthetics := defaults aesthetics l.stat.default_aes
    let calculated := aesthetics.filter (fun p => p.2.is_calculated)
    let new := calculated.map (fun p => (p.1, p.2.strip_dots))
    match buildEvaled data new with
    | .error e => .error e
    | .ok stat_data =>
      if new.isEmpty then .ok data
      else .ok ⟨data.cols ++ stat_data.cols⟩

/-- Index of the first occurrence of `x` in a list (length of the list
when absent). -/
def idxOf {α : Type} [DecidableEq α] (x : α) : List α → Nat
  | [] => 0
  | y :: ys => if x = y then 0 else idxOf x ys + 1

/-- Extend an ordered level set with the unseen elements of `l`, in
first-occurrence order. -/
def extendLevels {α : Type} [DecidableEq α] (acc : List α) (l : List α) :
    List α :=
  l.foldl (fun a x => if x ∈ a then a else a ++ [x]) acc

/-- The distinct elements of a list in first-occurrence order. -/
def firstOccs {α : Type} [DecidableEq α] (l : List α) : List α :=
  extendLevels [] l

/-- Modelled from the spec: `ninteraction` (ggplot/utils, not under src/)
assigns a dense 1-based integer id to each row key — "the dense enumeration
of the unique combinations" (§4.2) — so rows with equal keys get equal ids
and rows with distinct keys get distinct ids; ids follow first-occurrence
order, and unused combinations are dropped (`drop=True`). -/
def ninteraction {α : Type} [DecidableEq α] (keys : List α) : List Nat :=
  keys.map (fun x => idxOf x (firstOccs keys) + 1)

/-- `discrete_columns` (src/ggplot/layer.py:181-191): the names of the
discrete-dtyped columns not in `ignore`. -/
def discrete_columns (t : Table) (ignore : List String) : List String :=
  (t.cols.filter (fun c => c.dtype == Dtype.discrete
                           && !(ignore.contains c.name))).map Col.name

/-- The tuple of values of the named columns in row `i`
(a row of `df[disc]`). -/
def Table.rowKey (t : Table) (names : List String) (i : Nat) : List Val :=
  names.map (fun nm =>
    match t.getCol nm with
    | some c => c.vals.getD i Val.vNull
    | none => Val.vNull)

/-- `add_group` (src/ggplot/layer.py:166-178): empty data is returned
unchanged; when a `group` column exists its values are re-enumerated
densely with `ninteraction`; otherwise the group id is the dense
enumeration of the combinations of the discrete columns (ignoring
`label`), or the constant 1 when there are none.  The assigned column
holds integers, hence has a continuous dtype. -/
def add_group (data : Table) : Table :=
  if data.nrows = 0 then data
  else
    match data.getCol "group" with
    | some c =>
        data.setCol "group" .continuous
          ((ninteraction c.vals).map (fun k : Nat => Val.vInt k))
    | none =>
        let disc := discrete_columns data ["label"]
        if disc.isEmpty then
          data.setCol "group" .continuous
            (List.replicate data.nrows (Val.vInt 1))
        else
          let keys := (List.range data.nrows).map (fun i => data.rowKey disc i)
          data.setCol "group" .continuous
            ((ninteraction keys).map (fun k : Nat => Val.vInt k))

instance (t : Table) : Decidable t.wf := by
  unfold Table.wf
  infer_instance

/-- The values of the `group` column (empty when there is none). -/
def groupVals (t : Table) : List Val :=
  match t.getCol "group" with
  | some c => c.vals
  | none => []

/-- Modelled from the spec: `scale_continuous.train`
(ggplot/scales/scale.py, not under src/) "extends a (min,max) pair via
numeric min/max, ignoring null/missing values" (§4.3). -/
def train_continuous (r : Option (Int × Int)) (series : Series) :
    Option (Int × Int) :=
  let nums := series.vals.filterMap (fun v =>
    match v with | .vInt n => some n | _ => none)
  match nums with
  | [] => r
  | x :: xs =>
    let lo := xs.foldl min x
    let hi := xs.foldl max x
    match r with
    | none => some (lo, hi)
    | some (a, b) => some (min a lo, max b hi)

/-- Modelled from the spec: `scale_discrete.train`
(ggplot/scales/scale.py, not under src/) "extends its observed level set"
(§4.3) with the unseen values, in order. -/
def train_discrete (range : List Val) (series : Series) : List Val :=
  extendLevels range series.vals

/-- The state of a `scale_position_discrete`
(src/ggplot/scales/scale_xy.py:22-90): the user limits `self._limits`
(`[]` when unset), the trained discrete level set `self.range` (`[]` when
untrained), and the secondary continuous range `self.range_c` (`none`
initially). -/
structure scale_position_discrete where
  user_limits : List Val
  range : List Val
  range_c : Option (Int × Int)
deriving DecidableEq

/-- `scale_position_discrete.train` (src/ggplot/scales/scale_xy.py:34-49):
a continuous series is routed into `range_c` — the source temporarily
swaps `range` and `range_c`, calls the continuous training method, and
swaps back, so the net effect is that `range_c` is trained continuously
and `range` is untouched; any other series trains the discrete level
set. -/
def scale_position_discrete.train (s : scale_position_discrete)
    (series : Series) : scale_position_discrete :=
  if series.dtype = Dtype.continuous then
    { s with range_c := train_continuous s.range_c series }
  else
    { s with range := train_discrete s.range series }

/-- `range(mn, mx+1)` as a list of integer values. -/
def intSpan (mn mx : Int) : List Val :=
  (List.range (mx + 1 - mn).toNat).map (fun i => Val.vInt (mn + i))

/-- `scale_position_discrete.limits` (src/ggplot/scales/scale_xy.py:61-75):
explicit user limits win, then the trained discrete range, then the
integer span of the continuous range.  In the final branch the source
constructs `GgplotError('Lost, do not know what the limits are.')` but
never raises it, so the property falls through and returns `None`
(modelled as `.ok none` — no error propagates). -/
def scale_position_discrete.limits (s : scale_position_discrete) :
    Except GgError (Option (List Val)) :=
  if ¬ s.user_limits.isEmpty then .ok (some s.user_limits)
  else if ¬ s.range.isEmpty then .ok (some s.range)
  else
    match s.range_c with
    | some (a, b) => .ok (some (intSpan (min a b) (max a b)))
    | none => .ok none

/-- `scale_position_discrete.map` (src/ggplot/scales/scale_xy.py:51-59):
when no limits are passed they are taken from `self.limits`; a discrete
series is mapped through `seq[match(series, limits)]` with
`seq = np.arange(1, len(limits)+1)`, i.e. each value becomes its 1-based
position within the limits — `match` (ggplot/utils, not under src/) is
modelled from the spec: "unseen values map to an error/NA per policy"
(§4.3), here NA.  Were the resolved limits `None` (the lost-limits case),
`len(limits)` would raise a `TypeError`.  Any other series is returned
unchanged. -/
def scale_position_discrete.map (s : scale_position_discrete)
    (series : Series) (limits : List Val) : Except GgError Series :=
  let lims : Option (List Val) :=
    if limits.isEmpty then
      match s.limits with
      | .ok l => l
      | .error _ => none
    else some limits
  if series.dtype = Dtype.discrete then
    match lims with
    | none => .error .typeError
    | some ls =>
      .ok ⟨Dtype.continuous,
        series.vals.map (fun v =>
          if v ∈ ls then Val.vInt (idxOf v ls + 1) else Val.vNull)⟩
  else .ok series

/-- The process-wide warning state: `printed` is the class attribute
`stat._warnings_printed` (src/ggplot/stats/stat.py:26-28), a single set
shared by every stat instance in the process; `stderr` records the
messages written to `sys.stderr`, in order. -/
structure WarnState where
  printed : List String
  stderr : List String
deriving DecidableEq

/-- The state at process start: nothing printed yet. -/
def WarnState.initial : WarnState := ⟨[], []⟩

/-- `stat._print_warning` (src/ggplot/stats/stat.py:59-65): write the
message to standard error and record it, unless it was recorded before. -/
def print_warning (st : WarnState) (message : String) : WarnState :=
  if st.printed.contains message then st
  else ⟨st.printed ++ [message], st.stderr ++ [message]⟩

/-- A process lifetime: a sequence of `_print_warning` calls (on any stat
instances — the dedup set is a class attribute) from the initial state. -/
def run_warnings (msgs : List String) : WarnState :=
  msgs.foldl print_warning WarnState.initial

/-! ### Helper lemmas -/

theorem extendLevels_cons {α : Type} [DecidableEq α] (acc : List α) (x : α)
    (xs : List α) :
    extendLevels acc (x :: xs) =
      extendLevels (if x ∈ acc then acc else acc ++ [x]) xs := rfl

theorem extendLevels_extends {α : Type} [DecidableEq α] (l : List α) :
    ∀ acc, ∃ t, extendLevels acc l = acc ++ t := by
  induction l with
  | nil => exact fun acc => ⟨[], (List.append_nil acc).symm⟩
  | cons x xs ih =>
    intro acc
    rw [extendLevels_cons]
    by_cases hx : x ∈ acc
    · rw [if_pos hx]; exact ih acc
    · rw [if_neg hx]
      obtain ⟨t, ht⟩ := ih (acc ++ [x])
      exact ⟨[x] ++ t, by rw [ht, List.append_assoc]⟩

theorem mem_extendLevels {α : Type} [DecidableEq α] (l : List α) :
    ∀ acc (x : α), x ∈ l ∨ x ∈ acc → x ∈ extendLevels acc l := by
  induction l with
  | nil =>
    intro acc x h
    rcases h with h | h
    · cases h
    · exact h
  | cons y ys ih =>
    intro acc x h
    rw [extendLevels_cons]
    by_cases hy : y ∈ acc
    · rw [if_pos hy]
      apply ih
      rcases h with h | h
      · rcases List.mem_cons.mp h with h1 | h2
        · exact Or.inr (h1 ▸ hy)
        · exact Or.inl h2
      · exact Or.inr h
    · rw [if_neg hy]
      apply ih
      rcases h with h | h
      · rcases List.mem_cons.mp h with h1 | h2
        · exact Or.inr (by simp [h1])
        · exact Or.inl h2
      · exact Or.inr (by simp [h])

theorem mem_firstOccs {α : Type} [DecidableEq α] {l : List α} {x : α}
    (h : x ∈ l) : x ∈ firstOccs l :=
  mem_extendLevels l [] x (Or.inl h)

theorem idxOf_getD {α : Type} [DecidableEq α] (d : α) :
    ∀ (l : List α) (x : α), x ∈ l → l.getD (idxOf x l) d = x := by
  intro l
  induction l with
  | nil => intro x h; cases h
  | cons y ys ih =>
    intro x h
    by_cases hxy : x = y
    · subst hxy; simp [idxOf]
    · have hx : x ∈ ys := by
        rcases List.mem_cons.mp h with h1 | h2
        · exact absurd h1 hxy
        · exact h2
      rw [show idxOf x (y :: ys) = idxOf x ys + 1 from by simp [idxOf, hxy],
        List.getD_cons_succ]
      exact ih x hx

theorem idxOf_lt_length {α : Type} [DecidableEq α] :
    ∀ (l : List α) (x : α), x ∈ l → idxOf x l < l.length := by
  intro l
  induction l with
  | nil => intro x h; cases h
  | cons y ys ih =>
    intro x h
    by_cases hxy : x = y
    · simp [idxOf, hxy]
    · have hx : x ∈ ys := by
        rcases List.mem_cons.mp h with h1 | h2
        · exact absurd h1 hxy
        · exact h2
      have := ih x hx
      simp only [idxOf, if_neg hxy, List.length_cons]
      omega

theorem idxOf_inj {α : Type} [DecidableEq α] {l : List α} {x y : α}
    (hx : x ∈ l) (hy : y ∈ l) (h : idxOf x l = idxOf y l) : x = y := by
  have h1 := idxOf_getD x l x hx
  have h2 := idxOf_getD x l y hy
  rw [h] at h1
  exact h1.symm.trans h2

theorem getD_map {α β : Type} (f : α → β) :
    ∀ (l : List α) (i : Nat), i < l.length → ∀ (d : β) (e : α),
      (l.map f).getD i d = f (l.getD i e) := by
  intro l
  induction l with
  | nil => intro i hi; simp at hi
  | cons x xs ih =>
    intro i hi d e
    cases i with
    | zero => simp
    | succ n =>
      simp only [List.map_cons, List.getD_cons_succ]
      exact ih n (by simpa using hi) d e

theorem getD_mem {α : Type} :
    ∀ (l : List α) (i : Nat), i < l.length → ∀ d : α, l.getD i d ∈ l := by
  intro l
  induction l with
  | nil => intro i hi; simp at hi
  | cons x xs ih =>
    intro i hi d
    cases i with
    | zero => simp
    | succ n =>
      simp only [List.getD_cons_succ]
      exact List.mem_cons_of_mem x (ih n (by simpa using hi) d)

theorem ninteraction_eq_iff {α : Type} [DecidableEq α] (keys : List α) (d : α)
    {i j : Nat} (hi : i < keys.length) (hj : j < keys.length) :
    ((ninteraction keys).getD i 0 = (ninteraction keys).getD j 0 ↔
      keys.getD i d = keys.getD j d) := by
  unfold ninteraction
  rw [getD_map _ keys i hi 0 d, getD_map _ keys j hj 0 d]
  constructor
  · intro h
    refine idxOf_inj (mem_firstOccs (getD_mem keys i hi d))
      (mem_firstOccs (getD_mem keys j hj d)) ?_
    omega
  · intro h; rw [h]

theorem find?_map_replace (n : String) (dt : Dtype) (vs : List Val) :
    ∀ cols : List Col, cols.any (fun c => c.name == n) = true →
      (cols.map (fun c => if c.name == n then Col.mk n dt vs else c)).find?
        (fun c => c.name == n) = some ⟨n, dt, vs⟩ := by
  intro cols
  induction cols with
  | nil => intro h; simp at h
  | cons c cs ih =>
    intro h
    by_cases hc : c.name = n
    · simp [hc]
    · have hb : (c.name == n) = false := by simpa using hc
      simp only [List.any_cons, Bool.or_eq_true, beq_iff_eq] at h
      rcases h with h | h
      · exact absurd h hc
      · simp only [List.map_cons,
          if_neg (show ¬((c.name == n) = true) from by simp [hb])]
        rw [List.find?_cons_of_neg _ (by simp [hb])]
        exact ih h

theorem find?_append_new (n : String) (dt : Dtype) (vs : List Val) :
    ∀ cols : List Col, cols.any (fun c => c.name == n) = false →
      (cols ++ [Col.mk n dt vs]).find? (fun c => c.name == n) =
        some ⟨n, dt, vs⟩ := by
  intro cols
  induction cols with
  | nil => intro h; simp
  | cons c cs ih =>
    intro h
    simp only [List.any_cons, Bool.or_eq_false_iff, beq_eq_false_iff_ne] at h
    rw [List.cons_append, List.find?_cons_of_neg _ (by simpa using h.1)]
    exact ih (by simpa using h.2)

theorem getCol_setCol_self (t : Table) (n : String) (dt : Dtype)
    (vs : List Val) :
    (t.setCol n dt vs).getCol n = some ⟨n, dt, vs⟩ := by
  unfold Table.setCol Table.getCol Table.hasCol
  by_cases h : t.cols.any (fun c => c.name == n)
  · rw [if_pos h]
    exact find?_map_replace n dt vs t.cols h
  · rw [if_neg h]
    exact find?_append_new n dt vs t.cols (by simpa using h)

theorem nrows_setCol (t : Table) (n : String) (dt : Dtype) (vs : List Val)
    (hne : t.cols ≠ []) (hlen : vs.length = t.nrows) :
    (t.setCol n dt vs).nrows = t.nrows := by
  obtain ⟨cols⟩ := t
  cases cols with
  | nil => exact absurd rfl hne
  | cons c cs =>
    unfold Table.setCol
    by_cases h : Table.hasCol ⟨c :: cs⟩ n
    · rw [if_pos h]
      show (if (c.name == n) = true then Col.mk n dt vs else c).vals.length
          = c.vals.length
      by_cases hc : c.name = n
      · rw [if_pos (show (c.name == n) = true from by simpa using hc)]
        exact hlen
      · rw [if_neg (show ¬((c.name == n) = true) from by simpa using hc)]
    · rw [if_neg h]
      rfl

theorem groupVals_setCol (t : Table) (dt : Dtype) (vs : List Val) :
    groupVals (t.setCol "group" dt vs) = vs := by
  unfold groupVals
  rw [getCol_setCol_self]

theorem add_group_of_group (u : Table) (dt : Dtype) (g : List Val)
    (h0 : ¬ u.nrows = 0) (hg : u.getCol "group" = some ⟨"group", dt, g⟩) :
    add_group u = u.setCol "group" Dtype.continuous
      ((ninteraction g).map (fun k : Nat => Val.vInt k)) := by
  unfold add_group
  rw [if_neg h0, hg]

theorem add_group_spec (t : Table) (h0 : 0 < t.nrows) (hwf : t.wf) :
    ∃ g : List Val,
      (add_group t).getCol "group" = some ⟨"group", Dtype.continuous, g⟩ ∧
      g.length = t.nrows ∧ (add_group t).nrows = t.nrows := by
  have hne : t.cols ≠ [] := by
    intro hc
    have hz : t.nrows = 0 := by unfold Table.nrows; rw [hc]
    omega
  unfold add_group
  rw [if_neg (show ¬ t.nrows = 0 from by omega)]
  cases hg : t.getCol "group" with
  | some c =>
    have hcmem : c ∈ t.cols := List.mem_of_find?_eq_some hg
    have hclen : c.vals.length = t.nrows := hwf c hcmem
    have hlen :
        ((ninteraction c.vals).map (fun k : Nat => Val.vInt k)).length
          = t.nrows := by
      simp [ninteraction, hclen]
    exact ⟨_, getCol_setCol_self _ _ _ _, hlen,
      nrows_setCol _ _ _ _ hne hlen⟩
  | none =>
    by_cases hd : (discrete_columns t ["label"]).isEmpty
    · rw [if_pos hd]
      have hlen : (List.replicate t.nrows (Val.vInt 1)).length = t.nrows := by
        simp
      exact ⟨_, getCol_setCol_self _ _ _ _, hlen,
        nrows_setCol _ _ _ _ hne hlen⟩
    · rw [if_neg hd]
      have hlen :
          ((ninteraction ((List.range t.nrows).map
            (fun i => t.rowKey (discrete_columns t ["label"]) i))).map
            (fun k : Nat => Val.vInt k)).length = t.nrows := by
        simp [ninteraction]
      exact ⟨_, getCol_setCol_self _ _ _ _, hlen,
        nrows_setCol _ _ _ _ hne hlen⟩

/-- The invariant that carries the warning-dedup argument: nothing is on
stderr twice, and everything on stderr has been recorded. -/
def warnInv (st : WarnState) : Prop :=
  st.stderr.Nodup ∧ ∀ m ∈ st.stderr, m ∈ st.printed

theorem print_warning_inv (st : WarnState) (msg : String)
    (h : warnInv st) : warnInv (print_warning st msg) := by
  obtain ⟨hnd, hsub⟩ := h
  unfold print_warning
  by_cases hc : st.printed.contains msg
  · rw [if_pos hc]; exact ⟨hnd, hsub⟩
  · rw [if_neg hc]
    have hmsg : msg ∉ st.printed := by
      intro hmem
      exact hc (by simpa using hmem)
    refine ⟨?_, ?_⟩
    · have hms : msg ∉ st.stderr := fun hm => hmsg (hsub msg hm)
      simp [List.nodup_append, hnd, hms]
    · intro m hm
      rcases List.mem_append.mp hm with h1 | h1
      · exact List.mem_append_left _ (hsub m h1)
      · exact List.mem_append_right _ h1

theorem foldl_warnInv (msgs : List String) :
    ∀ st, warnInv st → warnInv (msgs.foldl print_warning st) := by
  induction msgs with
  | nil => exact fun st h => h
  | cons x xs ih => exact fun st h => ih _ (print_warning_inv st x h)

theorem print_warning_printed_subset (st : WarnState) (msg : String) :
    ∀ m ∈ st.printed, m ∈ (print_warning st msg).printed := by
  intro m hm
  unfold print_warning
  by_cases h : st.printed.contains msg
  · rw [if_pos h]; exact hm
  · rw [if_neg h]; exact List.mem_append_left _ hm

theorem printed_subset_foldl (msgs : List String) :
    ∀ (st : WarnState) (m : String), m ∈ st.printed →
      m ∈ (msgs.foldl print_warning st).printed := by
  induction msgs with
  | nil => exact fun _ _ hm => hm
  | cons x xs ih =>
    exact fun st m hm => ih _ m (print_warning_printed_subset st x m hm)

theorem mem_printed_print_warning (st : WarnState) (msg : String) :
    msg ∈ (print_warning st msg).printed := by
  unfold print_warning
  by_cases h : st.printed.contains msg
  · rw [if_pos h]; simpa using h
  · rw [if_neg h]; simp

theorem mem_printed_foldl (msgs : List String) :
    ∀ (st : WarnState) (m : String), m ∈ msgs →
      m ∈ (msgs.foldl print_warning st).printed := by
  induction msgs with
  | nil => intro st m hm; cases hm
  | cons x xs ih =>
    intro st m hm
    rcases List.mem_cons.mp hm with h1 | h2
    · subst h1
      exact printed_subset_foldl xs _ m (mem_printed_print_warning st m)
    · exact ih _ m h2

theorem foldl_printed_eq_stderr (msgs : List String) :
    ∀ st : WarnState, st.printed = st.stderr →
      (msgs.foldl print_warning st).printed =
        (msgs.foldl print_warning st).stderr := by
  induction msgs with
  | nil => exact fun _ h => h
  | cons x xs ih =>
    intro st h
    apply ih
    unfold print_warning
    by_cases hc : st.printed.contains x
    · rw [if_pos hc]; exact h
    · rw [if_neg hc]; simp [h]

/-! ### The verified properties -/

/-- C1 (code bug): `layer.compute_aesthetics` is claimed to accept a
list-like constant aesthetic whose length is 1 or equals the row count.
The source condition `if n != len(data) or n != 1` (src/ggplot/layer.py:91)
uses `or` where its own error message ("Aesthetics must either be length
one, or the same length as the data") requires `and`, so it raises unless
the length is 1 *and* equals the row count.  Concretely: on a 2-row table,
the mapping `{alpha: [5]}` with a length-1 constant raises
`DataLengthError` even though the claim says it is broadcast. -/
theorem compute_aesthetics_rejects_length_one :
    layer.compute_aesthetics
      ⟨[("alpha", AesVal.constant [Val.vInt 5])], false, none, [],
        ⟨"stat_identity", [], [], [], false, fun _ => Table.empty⟩⟩
      []
      ⟨[⟨"PANEL", Dtype.continuous, [Val.vInt 1, Val.vInt 1]⟩]⟩
      = Except.error GgError.dataLength := rfl

/-- C2 (code bug): on a discrete position scale with no user limits, an
empty trained discrete range and an empty secondary continuous range, the
`limits` property is claimed to raise `UnresolvedScaleError`.  The source
(src/ggplot/scales/scale_xy.py:74) constructs
`GgplotError('Lost, do not know what the limits are.')` but never raises
it, so the property returns `None` to the caller instead of propagating
an error. -/
theorem limits_lost_returns_none :
    scale_position_discrete.limits ⟨[], [], none⟩ = Except.ok none := rfl

/-- C3: `layer.calc_statistic` on an empty table returns an empty table;
the result is independent of the layer's stat, so neither the
required-aesthetics check nor the per-group transform is consulted
(the quantification over `l` covers every stat). -/
theorem calc_statistic_empty (l : layer) (data : Table)
    (h : data.nrows = 0) :
    l.calc_statistic data = Except.ok Table.empty := by
  unfold layer.calc_statistic
  rw [if_pos h]

/-- Witness for C3: a stat requiring `x` and `weight` on a zero-row table
that lacks `weight` still yields the empty table without an error. -/
theorem calc_statistic_empty_witness :
    layer.calc_statistic
      ⟨[], false, none, [],
        ⟨"stat_bin", ["x", "weight"], [], [], false, fun d => d⟩⟩
      ⟨[⟨"x", Dtype.continuous, []⟩]⟩ = Except.ok Table.empty :=
  calc_statistic_empty _ _ rfl

/-- C4: on a non-empty table, `layer.calc_statistic` raises
`MissingAestheticError` naming the stat and the missing aesthetics exactly
when some required aesthetic is neither a column nor a stat parameter;
otherwise it proceeds to the per-group computation. -/
theorem calc_statistic_checks_required_aes (l : layer) (data : Table)
    (h : 0 < data.nrows) :
    l.calc_statistic data =
      if (l.stat.required_aes.filter
          (fun r => !((data.colNames ++ l.stat.params).contains r))).isEmpty
      then Except.ok (l.stat.calculate_groups data)
      else Except.error (GgError.missingAes l.stat.name
        (l.stat.required_aes.filter
          (fun r => !((data.colNames ++ l.stat.params).contains r)))) := by
  simp only [layer.calc_statistic, check_required_aesthetics]
  rw [if_neg (show ¬ data.nrows = 0 from by omega)]
  by_cases hm : (l.stat.required_aes.filter
      (fun r => !((data.colNames ++ l.stat.params).contains r))).isEmpty
  · rw [if_pos hm, if_pos hm]
  · rw [if_neg hm, if_neg hm]

/-- Witness for C4 (the spec's scenario): a stat requiring `weight` on
one-row data lacking a `weight` column and parameter raises
`MissingAestheticError` naming the stat and `weight`. -/
theorem calc_statistic_checks_required_aes_witness :
    layer.calc_statistic
      ⟨[], false, none, [],
        ⟨"stat_sum", ["x", "weight"], [], [], false, fun d => d⟩⟩
      ⟨[⟨"x", Dtype.continuous, [Val.vInt 3]⟩]⟩
      = Except.error (GgError.missingAes "stat_sum" ["weight"]) :=
  (calc_statistic_checks_required_aes
    ⟨[], false, none, [],
      ⟨"stat_sum", ["x", "weight"], [], [], false, fun d => d⟩⟩
    ⟨[⟨"x", Dtype.continuous, [Val.vInt 3]⟩]⟩ (by decide)).trans (by rfl)

/-- C6: training a discrete position scale with a continuous series
updates only the secondary continuous range `range_c` (by continuous
training) and leaves the discrete level set and the user limits
untouched; training with a discrete series extends the discrete level
set and leaves `range_c` and the user limits untouched. -/
theorem train_routes_by_dtype (s : scale_position_discrete) (ser : Series) :
    (ser.dtype = Dtype.continuous →
      (s.train ser).range = s.range ∧
      (s.train ser).user_limits = s.user_limits ∧
      (s.train ser).range_c = train_continuous s.range_c ser) ∧
    (ser.dtype = Dtype.discrete →
      (s.train ser).range_c = s.range_c ∧
      (s.train ser).user_limits = s.user_limits ∧
      ∃ ext, (s.train ser).range = s.range ++ ext) := by
  constructor
  · intro h
    simp [scale_position_discrete.train, h]
  · intro h
    have hne : ser.dtype ≠ Dtype.continuous := by rw [h]; exact fun hc => by cases hc
    refine ⟨by simp [scale_position_discrete.train, hne],
            by simp [scale_position_discrete.train, hne], ?_⟩
    simp only [scale_position_discrete.train, if_neg hne, train_discrete]
    exact extendLevels_extends ser.vals s.range

/-- Witness for C6: training an untrained discrete scale holding level
"a" with the continuous series [2, 5] leaves the level set and limits
alone and trains `range_c` continuously. -/
theorem train_routes_by_dtype_witness :
    ((⟨[], [Val.vStr "a"], none⟩ : scale_position_discrete).train
        ⟨Dtype.continuous, [Val.vInt 2, Val.vInt 5]⟩).range = [Val.vStr "a"] ∧
    ((⟨[], [Val.vStr "a"], none⟩ : scale_position_discrete).train
        ⟨Dtype.continuous, [Val.vInt 2, Val.vInt 5]⟩).user_limits = [] ∧
    ((⟨[], [Val.vStr "a"], none⟩ : scale_position_discrete).train
        ⟨Dtype.continuous, [Val.vInt 2, Val.vInt 5]⟩).range_c =
      train_continuous none ⟨Dtype.continuous, [Val.vInt 2, Val.vInt 5]⟩ :=
  (train_routes_by_dtype ⟨[], [Val.vStr "a"], none⟩
    ⟨Dtype.continuous, [Val.vInt 2, Val.vInt 5]⟩).1 rfl

/-- C10: a series whose dtype is not discrete passes through
`scale_position_discrete.map` unchanged, whatever the limits. -/
theorem map_continuous_passthrough (s : scale_position_discrete)
    (ser : Series) (lim : List Val) (h : ser.dtype ≠ Dtype.discrete) :
    s.map ser lim = Except.ok ser := by
  simp [scale_position_discrete.map, h]

/-- Witness for C10: a continuous (jittered) series maps to itself even
against non-trivial limits. -/
theorem map_continuous_passthrough_witness :
    scale_position_discrete.map ⟨[], [], none⟩
      ⟨Dtype.continuous, [Val.vInt 7]⟩ [Val.vStr "a"] =
      Except.ok ⟨Dtype.continuous, [Val.vInt 7]⟩ :=
  map_continuous_passthrough _ _ _ (by decide)

/-- C5: `add_group` is idempotent up to renumbering — after a second
application, two rows share a group value exactly when they shared one
after the first application (the induced partition is identical). -/
theorem add_group_idempotent (t : Table) (hwf : t.wf) (i j : Nat)
    (hi : i < t.nrows) (hj : j < t.nrows) :
    ((groupVals (add_group (add_group t))).getD i Val.vNull =
        (groupVals (add_group (add_group t))).getD j Val.vNull ↔
      (groupVals (add_group t)).getD i Val.vNull =
        (groupVals (add_group t)).getD j Val.vNull) := by
  have h0 : 0 < t.nrows := Nat.lt_of_le_of_lt (Nat.zero_le i) hi
  obtain ⟨g, hg, hglen, hn⟩ := add_group_spec t h0 hwf
  have hgv : groupVals (add_group t) = g := by
    unfold groupVals; rw [hg]
  have h2 : add_group (add_group t) =
      (add_group t).setCol "group" Dtype.continuous
        ((ninteraction g).map (fun k : Nat => Val.vInt k)) :=
    add_group_of_group (add_group t) Dtype.continuous g (by omega) hg
  rw [h2, groupVals_setCol, hgv]
  have hi1 : i < g.length := by omega
  have hj1 : j < g.length := by omega
  have hi2 : i < (ninteraction g).length := by
    simpa [ninteraction] using hi1
  have hj2 : j < (ninteraction g).length := by
    simpa [ninteraction] using hj1
  rw [getD_map (fun k : Nat => Val.vInt k) (ninteraction g) i hi2 Val.vNull 0,
      getD_map (fun k : Nat => Val.vInt k) (ninteraction g) j hj2 Val.vNull 0]
  simp only [Val.vInt.injEq, Int.natCast_inj]
  exact ninteraction_eq_iff g Val.vNull hi1 hj1

/-- Witness for C5: on a one-column table with values [a, b, a], rows 0
and 2 share a group after two applications iff they do after one. -/
theorem add_group_idempotent_witness :
    ((groupVals (add_group (add_group
        ⟨[⟨"x", Dtype.discrete,
            [Val.vStr "a", Val.vStr "b", Val.vStr "a"]⟩]⟩))).getD 0 Val.vNull =
      (groupVals (add_group (add_group
        ⟨[⟨"x", Dtype.discrete,
            [Val.vStr "a", Val.vStr "b", Val.vStr "a"]⟩]⟩))).getD 2 Val.vNull ↔
     (groupVals (add_group
        ⟨[⟨"x", Dtype.discrete,
            [Val.vStr "a", Val.vStr "b", Val.vStr "a"]⟩]⟩)).getD 0 Val.vNull =
      (groupVals (add_group
        ⟨[⟨"x", Dtype.discrete,
            [Val.vStr "a", Val.vStr "b", Val.vStr "a"]⟩]⟩)).getD 2 Val.vNull) :=
  add_group_idempotent
    ⟨[⟨"x", Dtype.discrete, [Val.vStr "a", Val.vStr "b", Val.vStr "a"]⟩]⟩
    (by decide) 0 2 (by decide) (by decide)

/-- C7: through a discrete position scale, a discrete series maps each
value that occurs in the (non-empty) limits to the integer code given by
its 1-based position in the limits ordering (a code in 1..N pointing back
at the value), and maps a value not present in the limits to NA rather
than to a valid code. -/
theorem map_discrete_codes (s : scale_position_discrete) (ser : Series)
    (lim : List Val) (hd : ser.dtype = Dtype.discrete) (hl : lim ≠ []) :
    ∃ out, s.map ser lim = Except.ok out ∧
      out.vals.length = ser.vals.length ∧
      ∀ i, i < ser.vals.length →
        (ser.vals.getD i Val.vNull ∈ lim →
          ∃ k : Nat, out.vals.getD i Val.vNull = Val.vInt k ∧
            1 ≤ k ∧ k ≤ lim.length ∧
            lim.getD (k - 1) Val.vNull = ser.vals.getD i Val.vNull) ∧
        (ser.vals.getD i Val.vNull ∉ lim →
          out.vals.getD i Val.vNull = Val.vNull) := by
  have hle : lim.isEmpty = false := by
    cases lim with
    | nil => exact absurd rfl hl
    | cons a l => rfl
  refine ⟨⟨Dtype.continuous, ser.vals.map (fun v =>
      if v ∈ lim then Val.vInt (idxOf v lim + 1) else Val.vNull)⟩,
    ?_, ?_, ?_⟩
  · simp [scale_position_discrete.map, hd, hle]
  · simp
  · intro i hi
    rw [getD_map _ ser.vals i hi Val.vNull Val.vNull]
    constructor
    · intro hmem
      rw [if_pos hmem]
      refine ⟨idxOf (ser.vals.getD i Val.vNull) lim + 1, rfl, by omega, ?_, ?_⟩
      · have := idxOf_lt_length lim _ hmem; omega
      · simpa using idxOf_getD Val.vNull lim _ hmem
    · intro hmem
      rw [if_neg hmem]

/-- Witness for C7: against limits [a, b], the discrete series [b, z]
maps b to the code 2 (its 1-based position) and the unseen z to NA. -/
theorem map_discrete_codes_witness :
    ∃ out, scale_position_discrete.map ⟨[], [], none⟩
        ⟨Dtype.discrete, [Val.vStr "b", Val.vStr "z"]⟩
        [Val.vStr "a", Val.vStr "b"] = Except.ok out ∧
      out.vals.length = 2 ∧
      ∀ i, i < 2 →
        ([Val.vStr "b", Val.vStr "z"].getD i Val.vNull ∈
            [Val.vStr "a", Val.vStr "b"] →
          ∃ k : Nat, out.vals.getD i Val.vNull = Val.vInt k ∧
            1 ≤ k ∧ k ≤ 2 ∧
            [Val.vStr "a", Val.vStr "b"].getD (k - 1) Val.vNull =
              [Val.vStr "b", Val.vStr "z"].getD i Val.vNull) ∧
        ([Val.vStr "b", Val.vStr "z"].getD i Val.vNull ∉
            [Val.vStr "a", Val.vStr "b"] →
          out.vals.getD i Val.vNull = Val.vNull) :=
  map_discrete_codes ⟨[], [], none⟩
    ⟨Dtype.discrete, [Val.vStr "b", Val.vStr "z"]⟩
    [Val.vStr "a", Val.vStr "b"] rfl (by decide)

/-- C8 counterexample: the claim quantifies over every input table, but a
zero-row table that still has a column is not returned unchanged — the
source returns a fresh `pd.DataFrame()` (no columns) before ever looking
at the mapping, so the column is dropped. -/
theorem map_statistic_not_identity_on_empty :
    layer.map_statistic
      ⟨[("x", AesVal.column "a")], false, none, [],
        ⟨"stat_identity", [], [], [], false, fun _ => Table.empty⟩⟩
      [] ⟨[⟨"x", Dtype.continuous, []⟩]⟩
      ≠ Except.ok (Table.mk [⟨"x", Dtype.continuous, []⟩]) := by
  intro h
  have h2 : Table.empty = Table.mk [⟨"x", Dtype.continuous, []⟩] :=
    Except.ok.inj h
  simp [Table.empty] at h2

/-- C8 (amended): on a table with at least one row, when the effective
aesthetic mapping (layer mapping, merged over the plot mapping when
inherited, merged over the stat's default aesthetics) declares no
computed (dot-notation) aesthetics, `map_statistic` returns its input
unchanged; a zero-row input instead yields the fresh empty frame, which
is what the counterexample forces the claim to exclude. -/
theorem map_statistic_identity (l : layer) (pm : AesMapping) (data : Table)
    (h : 0 < data.nrows)
    (hno : (defaults (if l.inherit_aes then defaults l.mapping pm
        else l.mapping) l.stat.default_aes).filter
        (fun p => p.2.is_calculated) = []) :
    l.map_statistic pm data = Except.ok data := by
  simp only [layer.map_statistic]
  rw [if_neg (show ¬ data.nrows = 0 from by omega), hno]
  rfl

/-- Witness for C8: a one-row table passes through unchanged when the
mapping has no dot-notation aesthetics. -/
theorem map_statistic_identity_witness :
    layer.map_statistic
      ⟨[("x", AesVal.column "a")], false, none, [],
        ⟨"stat_identity", [], [], [], false, fun _ => Table.empty⟩⟩
      [] ⟨[⟨"x", Dtype.continuous, [Val.vInt 4]⟩]⟩
      = Except.ok ⟨[⟨"x", Dtype.continuous, [Val.vInt 4]⟩]⟩ :=
  map_statistic_identity _ _ _ (by decide) (by rfl)

/-- C9: over any process lifetime — any sequence of `_print_warning`
calls, on any stat instances, since `_warnings_printed` is one class-level
set — every message reaches standard error at most once, and a message
that is requested at least once is emitted. -/
theorem print_warning_dedup (msgs : List String) (m : String) :
    (run_warnings msgs).stderr.count m ≤ 1 ∧
      (m ∈ msgs → m ∈ (run_warnings msgs).stderr) := by
  unfold run_warnings
  constructor
  · have hinv : warnInv (msgs.foldl print_warning WarnState.initial) :=
      foldl_warnInv msgs WarnState.initial
        ⟨List.nodup_nil, by intro m hm; cases hm⟩
    exact List.nodup_iff_count_le_one.mp hinv.1 m
  · intro hm
    have he := foldl_printed_eq_stderr msgs WarnState.initial rfl
    rw [← he]
    exact mem_printed_foldl msgs WarnState.initial m hm

/-- Witness for C9: requesting w1, w1, w2 emits w1 exactly once. -/
theorem print_warning_dedup_witness :
    (run_warnings ["w1", "w1", "w2"]).stderr.count "w1" ≤ 1 ∧
      "w1" ∈ (run_warnings ["w1", "w1", "w2"]).stderr :=
  ⟨(print_warning_dedup ["w1", "w1", "w2"] "w1").1,
   (print_warning_dedup ["w1", "w1", "w2"] "w1").2 (by decide)⟩

end Ggplot
